import Mathlib

/-!
Verification of the ArF Formula 1 telemetry front-end.

The developments below shallowly embed the front-end logic of the
repository: the lap-time formatter (`script.js` `formatLapTime`,
`src/components/LapTimesChart.tsx` `formatTime`), the driver-selection
toggles (`script.js` `toggleDriverSelection`, the `F1App` class method),
the team-color lookup, the tabular rendering of analysis responses, the
speed-analysis computation of the attached Python asset, and the mock
data of the React tire-strategy and race-progression components.

JavaScript numbers are modelled as rationals (`ℚ`); the special values
`null`, `undefined` and `NaN` that reach `formatLapTime` are modelled by
the `JSVal` inductive.  JS `Math.floor` is `Int.floor`, the JS `%`
operator is subtraction of the truncated quotient, and `toFixed(3)` is
rounding half away from zero at three decimals followed by decimal
rendering, exactly as ECMA-262 specifies for the values in range here.
-/

/-- One decimal digit `d < 10` rendered as its character, as JavaScript
number-to-string conversion renders each digit. -/
def digitChar (d : Nat) : Char := Char.ofNat (48 + d)

/-- The numeric value of a decimal digit character. -/
def charToDigit (c : Char) : Nat := c.toNat - 48

/-- Decimal digits of `n`, most significant first, with explicit fuel so the
definition is structural and reduces in the kernel. -/
def natCharsAux : Nat → Nat → List Char
  | _, 0 => []
  | n, fuel + 1 =>
    if n < 10 then [digitChar n]
    else natCharsAux (n / 10) fuel ++ [digitChar (n % 10)]

/-- The decimal rendering of a natural number, as JavaScript string
interpolation renders a nonnegative integer-valued number. -/
def natChars (n : Nat) : List Char := natCharsAux n (n + 1)

/-- The decimal rendering of an integer (sign included), as JavaScript string
interpolation renders an integer-valued number. -/
def intChars (i : Int) : List Char :=
  if i < 0 then '-' :: natChars i.natAbs else natChars i.toNat

/-- Left-pad a character list with zeros up to width `n`:
JavaScript `String.prototype.padStart(n, '0')`. -/
def padLeft (l : List Char) (n : Nat) : List Char :=
  List.replicate (n - l.length) '0' ++ l

theorem natCharsAux_congr :
    ∀ (n f₁ f₂ : Nat), n < f₁ → n < f₂ → natCharsAux n f₁ = natCharsAux n f₂ := by
  intro n
  induction n using Nat.strong_induction_on with
  | _ n ih =>
    intro f₁ f₂ h₁ h₂
    match f₁, f₂ with
    | f₁ + 1, f₂ + 1 =>
      simp only [natCharsAux]
      split
      · rfl
      · rename_i hn
        have hd : n / 10 < n := Nat.div_lt_self (by omega) (by omega)
        rw [ih (n / 10) hd f₁ f₂ (by omega) (by omega)]

theorem natChars_eq (n : Nat) :
    natChars n =
      if n < 10 then [digitChar n] else natChars (n / 10) ++ [digitChar (n % 10)] := by
  show natCharsAux n (n + 1) = _
  simp only [natCharsAux]
  split
  · rfl
  · rename_i hn
    have hd : n / 10 < n := Nat.div_lt_self (by omega) (by omega)
    rw [natCharsAux_congr (n / 10) n (n / 10 + 1) (by omega) (by omega)]
    rfl

theorem charToDigit_digitChar (d : Nat) (h : d < 10) :
    charToDigit (digitChar d) = d := by
  interval_cases d <;> rfl

theorem natChars_digits (n : Nat) :
    ∀ c ∈ natChars n, ∃ d, d < 10 ∧ c = digitChar d := by
  induction n using Nat.strong_induction_on with
  | _ n ih =>
    intro c hc
    rw [natChars_eq] at hc
    split at hc
    · rename_i hn
      simp only [List.mem_singleton] at hc
      exact ⟨n, hn, hc⟩
    · rename_i hn
      rcases List.mem_append.mp hc with h | h
      · exact ih (n / 10) (Nat.div_lt_self (by omega) (by omega)) c h
      · simp only [List.mem_singleton] at h
        exact ⟨n % 10, Nat.mod_lt _ (by omega), h⟩

theorem natChars_length_pos (n : Nat) : 1 ≤ (natChars n).length := by
  rw [natChars_eq]
  split
  · simp
  · simp

theorem natChars_length_le :
    ∀ (k n : Nat), 0 < k → n < 10 ^ k → (natChars n).length ≤ k := by
  intro k n
  induction n using Nat.strong_induction_on generalizing k with
  | _ n ih =>
    intro hk hn
    rw [natChars_eq]
    split
    · simpa using hk
    · rename_i h10
      have hk2 : 2 ≤ k := by
        by_contra hlt
        have : k = 1 := by omega
        subst this
        simp [pow_one] at hn
        omega
      have hdiv : n / 10 < 10 ^ (k - 1) := by
        have hpow : 10 ^ (k - 1) * 10 = 10 ^ k := by
          rw [← pow_succ]
          congr 1
          omega
        refine Nat.div_lt_of_lt_mul ?_
        omega
      have := ih (n / 10) (Nat.div_lt_self (by omega) (by omega)) (k := k - 1)
        (by omega) hdiv
      simp only [List.length_append, List.length_singleton]
      omega

/-- Reading a digit string back into a number: fold each character in as one
decimal digit (what `parseInt` does on an all-digit string). -/
def parseDigits (l : List Char) : Nat :=
  l.foldl (fun a c => 10 * a + charToDigit c) 0

theorem parseDigits_natChars (n : Nat) : parseDigits (natChars n) = n := by
  induction n using Nat.strong_induction_on with
  | _ n ih =>
    rw [natChars_eq]
    split
    · rename_i hn
      simp [parseDigits, charToDigit_digitChar n hn]
    · rename_i hn
      have hd : n / 10 < n := Nat.div_lt_self (by omega) (by omega)
      have hrec := ih (n / 10) hd
      simp only [parseDigits, List.foldl_append, List.foldl_cons, List.foldl_nil] at *
      rw [hrec, charToDigit_digitChar (n % 10) (Nat.mod_lt _ (by omega))]
      omega

theorem parseDigits_padLeft (l : List Char) (n : Nat) :
    parseDigits (padLeft l n) = parseDigits l := by
  unfold padLeft parseDigits
  rw [List.foldl_append]
  congr 1
  generalize n - l.length = m
  induction m with
  | zero => rfl
  | succ m ihm => simpa [List.replicate_succ, charToDigit] using ihm

theorem padLeft_length (l : List Char) (n : Nat) (h : l.length ≤ n) :
    (padLeft l n).length = n := by
  simp only [padLeft, List.length_append, List.length_replicate]
  omega

theorem padLeft_digits (l : List Char) (n : Nat)
    (h : ∀ c ∈ l, ∃ d, d < 10 ∧ c = digitChar d) :
    ∀ c ∈ padLeft l n, ∃ d, d < 10 ∧ c = digitChar d := by
  intro c hc
  rcases List.mem_append.mp hc with hrep | hmem
  · refine ⟨0, by omega, ?_⟩
    rw [List.eq_of_mem_replicate hrep]
    rfl
  · exact h c hmem

/-- JavaScript `null`, `undefined`, `NaN` and finite numbers, the values the
lap-time formatter can receive. -/
inductive JSVal where
  | null : JSVal
  | undefined : JSVal
  | nan : JSVal
  | num : ℚ → JSVal

/-- JavaScript truncating division semantics: `a % b` subtracts
`b * trunc(a / b)`, so the truncation rounds toward zero. -/
def jsTrunc (q : ℚ) : Int := if 0 ≤ q then ⌊q⌋ else ⌈q⌉

/-- ECMA-262 `toFixed(3)` on a nonnegative number: round half away from zero
at three decimals, then print the integer part followed by exactly three
fraction digits. -/
def toFixed3NonnegChars (q : ℚ) : List Char :=
  natChars ((⌊q * 1000 + 1 / 2⌋).toNat / 1000) ++
    '.' :: padLeft (natChars ((⌊q * 1000 + 1 / 2⌋).toNat % 1000)) 3

/-- ECMA-262 `toFixed(3)`: a negative number is rendered as the minus sign
followed by the rendering of its negation. -/
def toFixed3Chars (q : ℚ) : List Char :=
  if q < 0 then '-' :: toFixed3NonnegChars (-q) else toFixed3NonnegChars q

/-- The body shared by `formatLapTime` (script.js) and `formatTime`
(LapTimesChart.tsx):
`minutes = Math.floor(seconds / 60)`,
`remainingSeconds = (seconds % 60).toFixed(3)`, and the result is the
template `` `${minutes}:${remainingSeconds.padStart(6, '0')}` ``. -/
def formatTimeChars (seconds : ℚ) : List Char :=
  intChars ⌊seconds / 60⌋ ++
    ':' :: padLeft (toFixed3Chars (seconds - 60 * jsTrunc (seconds / 60))) 6

/-- `formatTime` of `src/src/components/LapTimesChart.tsx` (lines 22-26):
no guard, straight to the `M:SS.mmm` rendering. -/
def formatTime (seconds : ℚ) : String := ⟨formatTimeChars seconds⟩

/-- `formatLapTime` of `script.js` (lines 1339-1344): the guard
`if (!seconds || isNaN(seconds)) return 'N/A'` catches `null`, `undefined`,
`NaN` and `0` (all falsy, or not-a-number); any other number reaches the
shared rendering body. -/
def formatLapTime (v : JSVal) : String :=
  match v with
  | .num q => if q = 0 then "N/A" else ⟨formatTimeChars q⟩
  | _ => "N/A"

/-- Modelled from the claim's words for C2: the string `M:SS.mmm` where `M`
is `floor(s / 60)` and `SS.mmm` is the remainder `s mod 60` rendered with
exactly two zero-padded integer digits and exactly three decimal digits
(rounding half up at the third decimal). -/
def specLapFormat (s : ℚ) : String :=
  ⟨natChars (⌊s / 60⌋).toNat ++
    ':' :: (padLeft (natChars ((⌊(s - 60 * ⌊s / 60⌋) * 1000 + 1 / 2⌋).toNat / 1000)) 2 ++
      '.' :: padLeft (natChars ((⌊(s - 60 * ⌊s / 60⌋) * 1000 + 1 / 2⌋).toNat % 1000)) 3)⟩

/-- Split a character list at the first occurrence of `c`, `none` when `c`
does not occur. -/
def splitOnce (c : Char) : List Char → Option (List Char × List Char)
  | [] => none
  | x :: xs =>
    if x = c then some ([], xs)
    else
      match splitOnce c xs with
      | some (l, r) => some (x :: l, r)
      | none => none

/-- Parse a formatted lap time back, as the round-trip property of the spec
reads it: minutes before the colon, a decimal seconds value after it, and
the parsed value is `minutes * 60 + seconds`. -/
def parseLapTime (str : String) : Option ℚ :=
  match splitOnce ':' str.data with
  | none => none
  | some (mins, rest) =>
    match splitOnce '.' rest with
    | none => none
    | some (secs, frac) =>
      some ((parseDigits mins : ℚ) * 60 + (parseDigits secs : ℚ) +
        (parseDigits frac : ℚ) / 10 ^ frac.length)

theorem splitOnce_append (c : Char) (l₁ l₂ : List Char) (h : c ∉ l₁) :
    splitOnce c (l₁ ++ c :: l₂) = some (l₁, l₂) := by
  induction l₁ with
  | nil => simp [splitOnce]
  | cons x xs ih =>
    have hx : x ≠ c := fun hxc => h (by simp [hxc])
    have hxs : c ∉ xs := fun hm => h (List.mem_cons_of_mem _ hm)
    simp only [List.cons_append, splitOnce, if_neg hx, List.append_eq, ih hxs]

theorem digitChar_ne_colon_dot (d : Nat) (h : d < 10) :
    digitChar d ≠ ':' ∧ digitChar d ≠ '.' := by
  interval_cases d <;> exact ⟨by decide, by decide⟩

theorem padLeft_toFixed_eq (a b : Nat) (ha : a < 100) (hb : b < 1000) :
    padLeft (natChars a ++ '.' :: padLeft (natChars b) 3) 6 =
      padLeft (natChars a) 2 ++ '.' :: padLeft (natChars b) 3 := by
  have hb3 : (natChars b).length ≤ 3 :=
    natChars_length_le 3 b (by omega) (lt_of_lt_of_le hb (by norm_num))
  have hpad3 : (padLeft (natChars b) 3).length = 3 := padLeft_length _ _ hb3
  have ha2 : (natChars a).length ≤ 2 :=
    natChars_length_le 2 a (by omega) (lt_of_lt_of_le ha (by norm_num))
  show List.replicate (6 - (natChars a ++ '.' :: padLeft (natChars b) 3).length) '0' ++ _ =
    (List.replicate (2 - (natChars a).length) '0' ++ natChars a) ++ _
  simp only [List.length_append, List.length_cons, hpad3]
  rw [show 6 - ((natChars a).length + (3 + 1)) = 2 - (natChars a).length by omega,
    List.append_assoc]

theorem remainder_nonneg_lt (s : ℚ) :
    0 ≤ s - 60 * (⌊s / 60⌋ : ℚ) ∧ s - 60 * (⌊s / 60⌋ : ℚ) < 60 := by
  have h₁ : (⌊s / 60⌋ : ℚ) ≤ s / 60 := Int.floor_le _
  have h₂ : s / 60 < ⌊s / 60⌋ + 1 := Int.lt_floor_add_one _
  constructor <;> nlinarith

theorem formatTimeChars_pos (s : ℚ) (hs : 0 < s) :
    formatTimeChars s =
      natChars (⌊s / 60⌋).toNat ++
        ':' :: (padLeft (natChars ((⌊(s - 60 * ⌊s / 60⌋) * 1000 + 1 / 2⌋).toNat / 1000)) 2 ++
          '.' :: padLeft (natChars ((⌊(s - 60 * ⌊s / 60⌋) * 1000 + 1 / 2⌋).toNat % 1000)) 3) := by
  have h60 : (0 : ℚ) ≤ s / 60 := by positivity
  have hfl : 0 ≤ ⌊s / 60⌋ := Int.floor_nonneg.mpr h60
  obtain ⟨hr0, hr60⟩ := remainder_nonneg_lt s
  have hn0 : 0 ≤ ⌊(s - 60 * (⌊s / 60⌋ : ℚ)) * 1000 + 1 / 2⌋ :=
    Int.floor_nonneg.mpr (by nlinarith)
  have hn60001 : ⌊(s - 60 * (⌊s / 60⌋ : ℚ)) * 1000 + 1 / 2⌋ < 60001 := by
    have hlt : (s - 60 * (⌊s / 60⌋ : ℚ)) * 1000 + 1 / 2 < ((60001 : ℤ) : ℚ) := by
      push_cast
      nlinarith
    exact Int.floor_lt.mpr hlt
  have ha : (⌊(s - 60 * (⌊s / 60⌋ : ℚ)) * 1000 + 1 / 2⌋).toNat / 1000 < 100 := by omega
  have hb : (⌊(s - 60 * (⌊s / 60⌋ : ℚ)) * 1000 + 1 / 2⌋).toNat % 1000 < 1000 := by omega
  unfold formatTimeChars
  rw [show jsTrunc (s / 60) = ⌊s / 60⌋ from if_pos h60,
    show intChars ⌊s / 60⌋ = natChars (⌊s / 60⌋).toNat from if_neg (by omega),
    show toFixed3Chars (s - 60 * (⌊s / 60⌋ : ℚ)) =
      toFixed3NonnegChars (s - 60 * (⌊s / 60⌋ : ℚ)) from if_neg (not_lt.mpr hr0)]
  unfold toFixed3NonnegChars
  rw [padLeft_toFixed_eq _ _ ha hb]

theorem parseLapTime_formatTime (s : ℚ) (hs : 0 < s) :
    parseLapTime (formatTime s) =
      some (((⌊s / 60⌋).toNat : ℚ) * 60 +
        (((⌊(s - 60 * ⌊s / 60⌋) * 1000 + 1 / 2⌋).toNat / 1000 : ℕ) : ℚ) +
        (((⌊(s - 60 * ⌊s / 60⌋) * 1000 + 1 / 2⌋).toNat % 1000 : ℕ) : ℚ) / 10 ^ 3) := by
  have hchars := formatTimeChars_pos s hs
  have hnc : ':' ∉ natChars (⌊s / 60⌋).toNat := by
    intro hmem
    obtain ⟨d, hd, hcd⟩ := natChars_digits _ _ hmem
    exact (digitChar_ne_colon_dot d hd).1 hcd.symm
  have hnd : '.' ∉ padLeft (natChars ((⌊(s - 60 * ⌊s / 60⌋) * 1000 + 1 / 2⌋).toNat / 1000)) 2 := by
    intro hmem
    obtain ⟨d, hd, hcd⟩ := padLeft_digits _ _ (natChars_digits _) _ hmem
    exact (digitChar_ne_colon_dot d hd).2 hcd.symm
  have hdata : (formatTime s).data = formatTimeChars s := rfl
  have hsplit1 := splitOnce_append ':' (natChars (⌊s / 60⌋).toNat)
    (padLeft (natChars ((⌊(s - 60 * ⌊s / 60⌋) * 1000 + 1 / 2⌋).toNat / 1000)) 2 ++
      '.' :: padLeft (natChars ((⌊(s - 60 * ⌊s / 60⌋) * 1000 + 1 / 2⌋).toNat % 1000)) 3) hnc
  have hsplit2 := splitOnce_append '.'
    (padLeft (natChars ((⌊(s - 60 * ⌊s / 60⌋) * 1000 + 1 / 2⌋).toNat / 1000)) 2)
    (padLeft (natChars ((⌊(s - 60 * ⌊s / 60⌋) * 1000 + 1 / 2⌋).toNat % 1000)) 3) hnd
  have hfraclen :
      (padLeft (natChars ((⌊(s - 60 * ⌊s / 60⌋) * 1000 + 1 / 2⌋).toNat % 1000)) 3).length = 3 :=
    padLeft_length _ _ (natChars_length_le 3 _ (by omega)
      (lt_of_lt_of_le (Nat.mod_lt _ (by omega)) (by norm_num)))
  simp only [parseLapTime, hdata, hchars, hsplit1, hsplit2, hfraclen,
    parseDigits_padLeft, parseDigits_natChars]

/-- C2: for every finite positive duration `s` in seconds, both lap-time
formatters (`formatLapTime` of script.js and `formatTime` of
LapTimesChart.tsx) return the string `M:SS.mmm` where `M` is `floor(s / 60)`
and `SS.mmm` is the remainder `s mod 60` rendered with exactly two
zero-padded integer digits and exactly three decimal digits (rounded half up
at the third decimal, as `toFixed(3)` renders; e.g. `94.342` formats as
`"1:34.342"`). -/
theorem formatLapTime_spec_format (s : ℚ) (hs : 0 < s) :
    formatLapTime (.num s) = specLapFormat s ∧ formatTime s = specLapFormat s := by
  have h := formatTimeChars_pos s hs
  unfold formatLapTime formatTime specLapFormat
  simp only [if_neg hs.ne', h]
  exact ⟨trivial, trivial⟩

/-- Witness for C2 at the spec's own example input `s = 94.342`. -/
theorem formatLapTime_spec_format_witness :
    (0 : ℚ) < 94342 / 1000 ∧
      (formatLapTime (.num (94342 / 1000)) = specLapFormat (94342 / 1000) ∧
        formatTime (94342 / 1000) = specLapFormat (94342 / 1000)) :=
  ⟨by norm_num, formatLapTime_spec_format (94342 / 1000) (by norm_num)⟩

/-- C3: for every positive duration `s`, formatting `s` to `M:SS.mmm` and
parsing the result back (parsed minutes times 60 plus parsed seconds)
yields a value within 1ms of `s`. -/
theorem formatTime_roundTrip (s : ℚ) (hs : 0 < s) :
    ∃ q, parseLapTime (formatTime s) = some q ∧ |q - s| ≤ 1 / 1000 := by
  refine ⟨_, parseLapTime_formatTime s hs, ?_⟩
  have hfl : 0 ≤ ⌊s / 60⌋ := Int.floor_nonneg.mpr (by positivity)
  obtain ⟨hr0, hr60⟩ := remainder_nonneg_lt s
  have hn0 : 0 ≤ ⌊(s - 60 * (⌊s / 60⌋ : ℚ)) * 1000 + 1 / 2⌋ :=
    Int.floor_nonneg.mpr (by nlinarith)
  have hb1 : ((⌊(s - 60 * (⌊s / 60⌋ : ℚ)) * 1000 + 1 / 2⌋ : ℤ) : ℚ) ≤
      (s - 60 * (⌊s / 60⌋ : ℚ)) * 1000 + 1 / 2 := Int.floor_le _
  have hb2 : (s - 60 * (⌊s / 60⌋ : ℚ)) * 1000 + 1 / 2 <
      ((⌊(s - 60 * (⌊s / 60⌋ : ℚ)) * 1000 + 1 / 2⌋ : ℤ) : ℚ) + 1 := Int.lt_floor_add_one _
  have hmc : (((⌊s / 60⌋).toNat : ℕ) : ℚ) = ((⌊s / 60⌋ : ℤ) : ℚ) := by
    exact_mod_cast Int.toNat_of_nonneg hfl
  have hnc : (((⌊(s - 60 * (⌊s / 60⌋ : ℚ)) * 1000 + 1 / 2⌋).toNat : ℕ) : ℚ) =
      ((⌊(s - 60 * (⌊s / 60⌋ : ℚ)) * 1000 + 1 / 2⌋ : ℤ) : ℚ) := by
    exact_mod_cast Int.toNat_of_nonneg hn0
  have hdm : (1000 : ℚ) *
        (((⌊(s - 60 * (⌊s / 60⌋ : ℚ)) * 1000 + 1 / 2⌋).toNat / 1000 : ℕ) : ℚ) +
        (((⌊(s - 60 * (⌊s / 60⌋ : ℚ)) * 1000 + 1 / 2⌋).toNat % 1000 : ℕ) : ℚ) =
      (((⌊(s - 60 * (⌊s / 60⌋ : ℚ)) * 1000 + 1 / 2⌋).toNat : ℕ) : ℚ) := by
    exact_mod_cast Nat.div_add_mod (⌊(s - 60 * (⌊s / 60⌋ : ℚ)) * 1000 + 1 / 2⌋).toNat 1000
  rw [hmc, show (10 : ℚ) ^ 3 = 1000 by norm_num, abs_le]
  constructor <;> nlinarith [hnc, hdm, hb1, hb2]

/-- Witness for C3 at `s = 94.342`. -/
theorem formatTime_roundTrip_witness :
    (0 : ℚ) < 94342 / 1000 ∧
      ∃ q, parseLapTime (formatTime (94342 / 1000)) = some q ∧
        |q - 94342 / 1000| ≤ 1 / 1000 :=
  ⟨by norm_num, formatTime_roundTrip (94342 / 1000) (by norm_num)⟩

/-- C9: the script.js lap-time formatter is total (a Lean function by
construction) and maps each of `null`, `undefined`, `NaN` and the number `0`
to the string `"N/A"`; in particular a zero-second duration renders as
`"N/A"`, not `"0:00.000"`. -/
theorem formatLapTime_falsy :
    formatLapTime .null = "N/A" ∧ formatLapTime .undefined = "N/A" ∧
      formatLapTime .nan = "N/A" ∧ formatLapTime (.num 0) = "N/A" ∧
      formatLapTime (.num 0) ≠ "0:00.000" := by
  refine ⟨rfl, rfl, rfl, ?_, ?_⟩ <;> simp [formatLapTime]

/-- A roster driver object as `script.js` receives it from the session-load
response: selection is keyed on `code`, display uses `team` and
`abbreviation`. -/
structure Driver where
  code : String
  team : String
  abbreviation : String
deriving DecidableEq

/-- `toggleDriverSelection` of `script.js` (lines 150-177):
`findIndex` on the driver code; a hit is spliced out, a miss is pushed at
the end only while fewer than 4 drivers are selected, otherwise the
selection is left unchanged (an alert is shown). -/
def toggleDriverSelection (selectedDrivers : List Driver) (driver : Driver) :
    List Driver :=
  match selectedDrivers.findIdx? (fun d => d.code == driver.code) with
  | some index => selectedDrivers.eraseIdx index
  | none =>
    if selectedDrivers.length < 4 then selectedDrivers ++ [driver]
    else selectedDrivers

/-- The driver codes `script.js` sends in every analysis request body:
`drivers: selectedDrivers.map(d => d.code)`. -/
def requestDrivers (selectedDrivers : List Driver) : List String :=
  selectedDrivers.map (·.code)

/-- The selection-relevant state of the single-page `F1App` class (unnamed
part_004): `selectedDrivers` is the instance field `this.selectedDrivers`,
and `selectedCards` holds the abbreviations of the driver cards currently
carrying the DOM `selected` class (cards are keyed by
`dataset.driver = abbreviation`, one card per roster driver). -/
structure F1AppState where
  selectedDrivers : List String
  selectedCards : List String

/-- The `F1App` constructor state: no drivers selected, no card rendered
with the `selected` class. -/
def f1InitialState : F1AppState := ⟨[], []⟩

/-- `F1App.toggleDriverSelection` of the single-page app (unnamed part_004,
lines 202-218): the branch condition is the card's DOM class
(`driverCard.classList.contains('selected')`, line 205), not the list.  A
selected card loses the class and its abbreviation is filtered out of
`selectedDrivers`; an unselected card gains the class and its abbreviation
is pushed only while `selectedDrivers.length < 6`, else an error toast is
shown and nothing changes. -/
def f1ToggleDriverSelection (st : F1AppState) (driverAbbr : String) : F1AppState :=
  if driverAbbr ∈ st.selectedCards then
    { selectedDrivers := st.selectedDrivers.filter (fun d => d ≠ driverAbbr)
      selectedCards := st.selectedCards.filter (fun c => c ≠ driverAbbr) }
  else if st.selectedDrivers.length < 6 then
    { selectedDrivers := st.selectedDrivers ++ [driverAbbr]
      selectedCards := driverAbbr :: st.selectedCards }
  else st

/-- A successful `F1App.loadSession`: `createDriverSelection` (part_004
lines 133, 181-200) rebuilds every driver card with the bare
`driver-card` class — no card keeps `selected` — while
`this.selectedDrivers` is never cleared (only the constructor and the
toggle assign it). -/
def f1LoadSession (st : F1AppState) : F1AppState :=
  { selectedDrivers := st.selectedDrivers, selectedCards := [] }

/-- The user-visible selection events of the single-page app: clicking a
driver card, or re-loading a session. -/
inductive F1Event where
  | toggle : String → F1Event
  | load : F1Event

/-- One event step of the single-page app. -/
def f1Step (st : F1AppState) (e : F1Event) : F1AppState :=
  match e with
  | .toggle abbr => f1ToggleDriverSelection st abbr
  | .load => f1LoadSession st

theorem toggleDriverSelection_inv (sel : List Driver) (d : Driver)
    (h : (requestDrivers sel).Nodup ∧ sel.length ≤ 4) :
    (requestDrivers (toggleDriverSelection sel d)).Nodup ∧
      (toggleDriverSelection sel d).length ≤ 4 := by
  obtain ⟨hnd, hlen⟩ := h
  unfold toggleDriverSelection
  split
  · rename_i i hf
    have hsub : List.Sublist (sel.eraseIdx i) sel := List.eraseIdx_sublist sel i
    exact ⟨hnd.sublist (hsub.map _), le_trans hsub.length_le hlen⟩
  · rename_i hf
    split
    · rename_i hlt
      have hnotin : ∀ x ∈ sel, x.code ≠ d.code := by
        rw [List.findIdx?_eq_none_iff] at hf
        intro x hx
        simpa using hf x hx
      constructor
      · unfold requestDrivers at *
        rw [List.map_append]
        simpa [List.nodup_append] using ⟨hnd, hnotin⟩
      · simp only [List.length_append, List.length_singleton]
        omega
    · exact ⟨hnd, hlen⟩

theorem f1ToggleDriverSelection_length (st : F1AppState) (a : String)
    (h : st.selectedDrivers.length ≤ 6) :
    (f1ToggleDriverSelection st a).selectedDrivers.length ≤ 6 := by
  unfold f1ToggleDriverSelection
  split
  · exact le_trans (List.length_filter_le _ _) h
  · split
    · rename_i hlt
      simp only [List.length_append, List.length_singleton]
      omega
    · exact h

theorem f1Step_length (st : F1AppState) (e : F1Event)
    (h : st.selectedDrivers.length ≤ 6) :
    (f1Step st e).selectedDrivers.length ≤ 6 := by
  cases e with
  | toggle abbr => exact f1ToggleDriverSelection_length st abbr h
  | load => exact h

theorem foldl_f1Step_length (events : List F1Event) :
    ∀ st, st.selectedDrivers.length ≤ 6 →
      (events.foldl f1Step st).selectedDrivers.length ≤ 6 := by
  induction events with
  | nil => exact fun st h => h
  | cons e rest ih =>
    intro st h
    exact ih _ (f1Step_length st e h)

/-- The class/list synchronisation the toggle relies on: the selection has
no duplicate and a card carries the `selected` class exactly when its
abbreviation is selected.  A toggle preserves it — a session re-load does
not. -/
def F1Sync (st : F1AppState) : Prop :=
  st.selectedDrivers.Nodup ∧ ∀ a, a ∈ st.selectedCards ↔ a ∈ st.selectedDrivers

theorem f1ToggleDriverSelection_sync (st : F1AppState) (a : String)
    (h : F1Sync st) : F1Sync (f1ToggleDriverSelection st a) := by
  obtain ⟨hnd, hiff⟩ := h
  unfold f1ToggleDriverSelection
  split
  · refine ⟨hnd.filter _, ?_⟩
    intro x
    simp [List.mem_filter, hiff x]
  · rename_i hnotin
    split
    · have hnd' : a ∉ st.selectedDrivers := fun hmem => hnotin ((hiff a).mpr hmem)
      refine ⟨?_, ?_⟩
      · rw [List.nodup_append]
        refine ⟨hnd, List.nodup_singleton a, ?_⟩
        intro x hx hxa
        rw [List.mem_singleton] at hxa
        subst hxa
        exact hnd' hx
      · intro x
        simp only [List.mem_cons, List.mem_append, List.mem_singleton,
          List.not_mem_nil, or_false, hiff x]
        exact or_comm
    · exact ⟨hnd, hiff⟩

theorem foldl_f1Toggle_sync (toggles : List String) :
    ∀ st, F1Sync st → F1Sync (toggles.foldl f1ToggleDriverSelection st) := by
  induction toggles with
  | nil => exact fun st h => h
  | cons a rest ih =>
    intro st h
    exact ih _ (f1ToggleDriverSelection_sync st a h)

theorem foldl_toggle_inv (acts : List Driver) :
    ∀ sel, (requestDrivers sel).Nodup ∧ sel.length ≤ 4 →
      (requestDrivers (acts.foldl toggleDriverSelection sel)).Nodup ∧
        (acts.foldl toggleDriverSelection sel).length ≤ 4 := by
  induction acts with
  | nil => exact fun sel h => h
  | cons d rest ih =>
    intro sel h
    exact ih _ (toggleDriverSelection_inv sel d h)

theorem toggleDriverSelection_at_cap (sel : List Driver) (d : Driver)
    (hnone : ∀ x ∈ sel, x.code ≠ d.code) (hfull : ¬sel.length < 4) :
    toggleDriverSelection sel d = sel := by
  unfold toggleDriverSelection
  rw [List.findIdx?_eq_none_iff.mpr (fun x hx => by simpa using hnone x hx)]
  simp only [if_neg hfull]

theorem f1ToggleDriverSelection_at_cap (st : F1AppState) (a : String)
    (hnotin : a ∉ st.selectedCards) (hfull : ¬st.selectedDrivers.length < 6) :
    f1ToggleDriverSelection st a = st := by
  unfold f1ToggleDriverSelection
  rw [if_neg hnotin, if_neg hfull]

/-- C1 counterexample, the reviewer-visible re-load scenario: select VER,
re-load the session (cards rebuilt without the `selected` class,
`this.selectedDrivers` kept), then click VER's fresh card.  The class test
takes the else-branch and pushes the code again, so the selection — and
hence the next analysis request body — carries `VER` twice, refuting the
claimed no-duplicate invariant. -/
theorem f1Selection_duplicate_after_reload :
    (([F1Event.toggle "VER", F1Event.load, F1Event.toggle "VER"].foldl f1Step
        f1InitialState).selectedDrivers = ["VER", "VER"])
    ∧ ¬([F1Event.toggle "VER", F1Event.load, F1Event.toggle "VER"].foldl f1Step
        f1InitialState).selectedDrivers.Nodup := by
  constructor
  · rfl
  · decide

/-- C1 amended: after every sequence of driver-card toggle and session-load
actions, the selection holds at most 6 driver codes (script.js caps at 4,
hence at most 6), an attempt to select a new driver at the cap leaves the
selection unchanged, and every toggle appends the driver's code at the end,
removes entries of one code keeping the others in order, or does nothing —
so request bodies list codes in selection order.  The selection never holds
the same code twice in the multi-page app (its toggle tests the array
itself), and in the single-page app for toggle sequences uninterrupted by a
session re-load; a re-load strips the cards' `selected` class while keeping
the selection, after which re-toggling a selected driver duplicates its
code. -/
theorem selection_contract (acts : List Driver) (events : List F1Event)
    (toggles : List String) :
    ((requestDrivers (acts.foldl toggleDriverSelection [])).Nodup
      ∧ (acts.foldl toggleDriverSelection []).length ≤ 6
      ∧ (∀ d, (∀ x ∈ acts.foldl toggleDriverSelection [], x.code ≠ d.code) →
          ¬(acts.foldl toggleDriverSelection []).length < 4 →
          toggleDriverSelection (acts.foldl toggleDriverSelection []) d =
            acts.foldl toggleDriverSelection [])
      ∧ (∀ sel d, toggleDriverSelection sel d = sel
          ∨ toggleDriverSelection sel d = sel ++ [d]
          ∨ ∃ i, toggleDriverSelection sel d = sel.eraseIdx i))
    ∧ ((events.foldl f1Step f1InitialState).selectedDrivers.length ≤ 6
      ∧ (∀ st a, a ∉ st.selectedCards → ¬st.selectedDrivers.length < 6 →
          f1ToggleDriverSelection st a = st)
      ∧ (∀ st a, (f1ToggleDriverSelection st a).selectedDrivers = st.selectedDrivers
          ∨ (f1ToggleDriverSelection st a).selectedDrivers = st.selectedDrivers ++ [a]
          ∨ (f1ToggleDriverSelection st a).selectedDrivers =
              st.selectedDrivers.filter (fun x => x ≠ a)))
    ∧ (toggles.foldl f1ToggleDriverSelection f1InitialState).selectedDrivers.Nodup := by
  obtain ⟨hnd₁, hlen₁⟩ := foldl_toggle_inv acts [] ⟨by simp [requestDrivers], by simp⟩
  have hsync := foldl_f1Toggle_sync toggles f1InitialState
    ⟨List.nodup_nil, by simp [f1InitialState]⟩
  refine ⟨⟨hnd₁, by omega, ?_, ?_⟩,
    ⟨foldl_f1Step_length events f1InitialState (by simp [f1InitialState]), ?_, ?_⟩,
    hsync.1⟩
  · exact fun d hnone hfull => toggleDriverSelection_at_cap _ d hnone hfull
  · intro sel d
    unfold toggleDriverSelection
    split
    · rename_i i hf
      exact Or.inr (Or.inr ⟨i, rfl⟩)
    · split
      · exact Or.inr (Or.inl rfl)
      · exact Or.inl rfl
  · exact fun st a hnotin hfull => f1ToggleDriverSelection_at_cap st a hnotin hfull
  · intro st a
    unfold f1ToggleDriverSelection
    split
    · exact Or.inr (Or.inr rfl)
    · split
      · exact Or.inr (Or.inl rfl)
      · exact Or.inl rfl

/-- The static team-color table of `script.js` (lines 18-29). -/
def teamColors : List (String × String) :=
  [("Mercedes", "#00D2BE"), ("Red Bull Racing", "#1E41FF"), ("Ferrari", "#DC0000"),
   ("McLaren", "#FF8700"), ("Alpine", "#0090FF"), ("Aston Martin", "#006F62"),
   ("Haas", "#808080"), ("RB", "#1660AD"), ("Williams", "#87CEEB"),
   ("Kick Sauber", "#00E701")]

/-- The JS expression `teamColors[driver.team] || '#808080'`: a present team
yields its (nonempty, hence truthy) color string, a missing key yields
`undefined`, which falls through to the neutral gray. -/
def resolveTeamColor (team : String) : String :=
  match teamColors.lookup team with
  | some c => c
  | none => "#808080"

/-- The color shown on a driver card in `setupDriverSelection`
(script.js lines 121-147). -/
def driverCardTeamColor (driver : Driver) : String := resolveTeamColor driver.team

/-- The color of a selected-driver tag in `updateSelectedDriversDisplay`
(script.js lines 180-204). -/
def selectedTagTeamColor (driver : Driver) : String := resolveTeamColor driver.team

theorem lookup_eq_some_of_mem (l : List (String × String)) (k v : String)
    (hnd : (l.map Prod.fst).Nodup) (h : (k, v) ∈ l) : l.lookup k = some v := by
  induction l with
  | nil => cases h
  | cons p t ih =>
    obtain ⟨pk, pv⟩ := p
    rcases List.mem_cons.mp h with heq | hmem
    · obtain ⟨rfl, rfl⟩ := Prod.mk.injEq .. ▸ heq
      simp [List.lookup]
    · have hk : pk ≠ k := by
        intro hpk
        subst hpk
        have : pk ∈ t.map Prod.fst := List.mem_map.mpr ⟨(pk, v), hmem, rfl⟩
        exact (List.nodup_cons.mp hnd).1 this
      have hbeq : (k == pk) = false := by
        simpa using fun hkk => hk hkk.symm
      simp only [List.lookup, hbeq]
      exact ih (List.nodup_cons.mp hnd).2 hmem

theorem lookup_eq_none_of_not_mem (l : List (String × String)) (k : String)
    (h : k ∉ l.map Prod.fst) : l.lookup k = none := by
  induction l with
  | nil => rfl
  | cons p t ih =>
    obtain ⟨pk, pv⟩ := p
    have hk : (k == pk) = false := by
      simpa using fun hkk => h (by simp [hkk])
    simp only [List.lookup, hk]
    exact ih fun hmem => h (List.mem_cons_of_mem _ hmem)

/-- C7: the color displayed for a driver on the selection grid and on the
selected-driver tags equals the team-color table entry for the driver's
team when present, and the neutral gray `#808080` for any team not in the
table. -/
theorem teamColor_resolution (d : Driver) (c : String) :
    ((d.team, c) ∈ teamColors →
      driverCardTeamColor d = c ∧ selectedTagTeamColor d = c)
    ∧ (d.team ∉ teamColors.map Prod.fst →
      driverCardTeamColor d = "#808080" ∧ selectedTagTeamColor d = "#808080") := by
  have hnd : (teamColors.map Prod.fst).Nodup := by decide
  constructor
  · intro h
    have hl := lookup_eq_some_of_mem teamColors d.team c hnd h
    constructor <;>
      simp [driverCardTeamColor, selectedTagTeamColor, resolveTeamColor, hl]
  · intro h
    have hl := lookup_eq_none_of_not_mem teamColors d.team h
    constructor <;>
      simp [driverCardTeamColor, selectedTagTeamColor, resolveTeamColor, hl]

/-- A response row: a JavaScript result object as an ordered association
list from field name to rendered value. -/
abbrev Row := List (String × String)

/-- The table headers of every tabular loader in `script.js`:
`Object.keys(result.data[0])`, the field names of the first row only. -/
def tableHeaders (data : List Row) : List String :=
  match data with
  | [] => []
  | row :: _ => row.map Prod.fst

/-- The text of one table cell, the JS interpolation `${row[h]}`: a present
field renders its value, a missing field renders `undefined`. -/
def cellText (row : Row) (h : String) : String :=
  match row.lookup h with
  | some v => v
  | none => "undefined"

/-- One rendered table row: one cell per header. -/
def renderRow (headers : List String) (row : Row) : List String :=
  headers.map (cellText row)

/-- The rendered table of the tabular loaders: headers from the first row,
then one row of cells per data row. -/
def renderTable (data : List Row) : List String × List (List String) :=
  (tableHeaders data, data.map (renderRow (tableHeaders data)))

/-- A concrete successful response body whose two driver rows carry
different field sets: the first row has only field `a`, the second only
field `b`. -/
def unionCexData : List Row := [[("a", "1")], [("b", "2")]]

/-- C4 counterexample: on `unionCexData` the rendered column set is the
first row's keys `[a]`, not the union of all field names — field `b`,
present in the second row, is omitted from the headers entirely. -/
theorem tableHeaders_not_union :
    (∃ row ∈ unionCexData, "b" ∈ row.map Prod.fst)
    ∧ "b" ∉ tableHeaders unionCexData := by
  constructor
  · exact ⟨[("b", "2")], by simp [unionCexData], by simp⟩
  · simp [tableHeaders, unionCexData]

/-- C4 amended: the rendered table's column set equals the field names of
the first returned row (fields appearing only in later rows are omitted);
every rendered row has exactly one cell per header, so all rows have the
same number of cells, and a header field missing from a row is rendered as
the JavaScript string `undefined` rather than a deliberate
not-available marker. -/
theorem renderTable_first_row_headers (data : List Row) :
    tableHeaders data = (data.headD []).map Prod.fst
    ∧ (∀ row ∈ data, (renderRow (tableHeaders data) row).length =
        (tableHeaders data).length)
    ∧ (∀ row ∈ data, ∀ h ∈ tableHeaders data, row.lookup h = none →
        cellText row h = "undefined")
    ∧ (renderTable data).2.length = data.length := by
  refine ⟨?_, ?_, ?_, ?_⟩
  · cases data <;> rfl
  · intro row hrow
    simp [renderRow]
  · intro row hrow h hh hnone
    simp [cellText, hnone]
  · simp [renderTable]

/-- An analysis response as the front end reads it after `response.json()`:
the success flag, the error message of a failure body, and the data rows of
a success body. -/
structure ApiResponse where
  success : Bool
  error : String
  data : List Row

/-- What a loader leaves in its content container. -/
inductive RenderOutcome where
  | chart : List Row → RenderOutcome
  | table : List String → List (List String) → RenderOutcome
  | errorMsg : String → RenderOutcome
  | infoMsg : String → RenderOutcome

/-- The rendering decision of `loadTelemetryData` (script.js lines
295-349): success plots the returned traces, failure writes
`Error: ${result.error}` into a status-error element. -/
def loadTelemetryData (r : ApiResponse) : RenderOutcome :=
  if r.success = true then RenderOutcome.chart r.data
  else RenderOutcome.errorMsg ("Error: " ++ r.error)

/-- The rendering decision of `loadGenericAnalysisData` (script.js lines
1100-1140): `result.success && result.data.length > 0` renders the table,
anything else — a failure included — renders the fixed info message
`No analysis data available`. -/
def loadGenericAnalysisData (r : ApiResponse) : RenderOutcome :=
  if r.success = true ∧ 0 < r.data.length then
    RenderOutcome.table (tableHeaders r.data) (r.data.map (renderRow (tableHeaders r.data)))
  else RenderOutcome.infoMsg "No analysis data available"

/-- C8 counterexample: a failed response with error text `boom` reaching
the generic tabular loader renders the fixed info message; no error message
containing the response's error string verbatim is displayed. -/
theorem genericAnalysis_error_not_shown :
    loadGenericAnalysisData ⟨false, "boom", []⟩ =
      RenderOutcome.infoMsg "No analysis data available"
    ∧ ∀ pre post, loadGenericAnalysisData ⟨false, "boom", []⟩ ≠
        RenderOutcome.errorMsg (pre ++ "boom" ++ post) := by
  constructor
  · rfl
  · intro pre post h
    simp [loadGenericAnalysisData] at h

/-- C8 amended: a chart is rendered iff the response's success flag is true
and a table iff additionally the data list is non-empty; on failure the
telemetry (chart) loader displays the error string verbatim inside an
error message, while the generic tabular loader displays the fixed
`No analysis data available` info message without the error string. -/
theorem renderDecision (r : ApiResponse) :
    ((∃ s, loadTelemetryData r = RenderOutcome.chart s) ↔ r.success = true)
    ∧ (r.success = false →
        loadTelemetryData r = RenderOutcome.errorMsg ("Error: " ++ r.error))
    ∧ ((∃ hs rows, loadGenericAnalysisData r = RenderOutcome.table hs rows) ↔
        (r.success = true ∧ r.data ≠ []))
    ∧ (¬(r.success = true ∧ r.data ≠ []) →
        loadGenericAnalysisData r = RenderOutcome.infoMsg "No analysis data available") := by
  refine ⟨?_, ?_, ?_, ?_⟩
  · constructor
    · intro ⟨s, hs⟩
      by_contra hns
      simp [loadTelemetryData, hns] at hs
    · intro hs
      exact ⟨r.data, by simp [loadTelemetryData, hs]⟩
  · intro hs
    simp [loadTelemetryData, hs]
  · constructor
    · intro ⟨hs, rows, hr⟩
      by_contra hns
      rw [Classical.not_and_iff_or_not_not] at hns
      rcases hns with hns | hns
      · simp [loadGenericAnalysisData, hns] at hr
      · have hdata : r.data = [] := not_not.mp hns
        simp [loadGenericAnalysisData, hdata] at hr
    · intro ⟨hs, hne⟩
      exact ⟨tableHeaders r.data, r.data.map (renderRow (tableHeaders r.data)),
        by simp [loadGenericAnalysisData, hs, List.length_pos.mpr hne]⟩
  · intro hn
    have : ¬(r.success = true ∧ 0 < r.data.length) := by
      intro ⟨hs, hpos⟩
      exact hn ⟨hs, List.length_pos.mp hpos⟩
    simp [loadGenericAnalysisData, this]

/-- `speed_data.mean()` of the attached speed-analysis script: the
arithmetic mean of the telemetry speed samples of the fastest lap. -/
def averageSpeed (speeds : List ℚ) : ℚ := speeds.sum / speeds.length

/-- `speed_data.max()`: the maximum of the telemetry speed samples. -/
def topSpeed (speeds : List ℚ) : ℚ :=
  match speeds with
  | [] => 0
  | x :: xs => xs.foldl max x

/-- One entry of the `results` list the attached speed-analysis script
builds per driver (lines 35-65). -/
structure SpeedRecord where
  driver : String
  averageSpeed : ℚ
  topSpeed : ℚ
  result : ℚ

/-- The per-driver record of the speed-analysis loop: average and top speed
from the fastest lap's telemetry samples, and
`result = 100 * (average_speed / top_speed)`. -/
def driverSpeedRecord (name : String) (speeds : List ℚ) : SpeedRecord :=
  { driver := name
    averageSpeed := averageSpeed speeds
    topSpeed := topSpeed speeds
    result := 100 * (averageSpeed speeds / topSpeed speeds) }

/-- Modelled from the claim's words: the average speed the spec asks for,
lap distance divided by lap time. -/
def specAverageSpeed (lapDistance lapTime : ℚ) : ℚ := lapDistance / lapTime

theorem le_foldl_max (a : ℚ) (l : List ℚ) : a ≤ l.foldl max a := by
  induction l generalizing a with
  | nil => exact le_refl a
  | cons x xs ih => exact le_trans (le_max_left a x) (ih (max a x))

theorem mem_le_foldl_max (a : ℚ) (l : List ℚ) : ∀ x ∈ l, x ≤ l.foldl max a := by
  induction l generalizing a with
  | nil =>
    intro x hx
    cases hx
  | cons y ys ih =>
    intro x hx
    rcases List.mem_cons.mp hx with rfl | hmem
    · exact le_trans (le_max_right a x) (le_foldl_max _ ys)
    · exact ih (max a y) x hmem

theorem foldl_max_mem (a : ℚ) (l : List ℚ) :
    l.foldl max a = a ∨ l.foldl max a ∈ l := by
  induction l generalizing a with
  | nil => exact Or.inl rfl
  | cons x xs ih =>
    rcases ih (max a x) with h | h
    · rcases max_choice a x with hm | hm
      · exact Or.inl (by rw [List.foldl_cons, h, hm])
      · refine Or.inr ?_
        rw [List.foldl_cons, h, hm]
        exact List.mem_cons_self x xs
    · exact Or.inr (List.mem_cons_of_mem _ h)

/-- C5 counterexample: a fastest lap with speed samples 100 and 200 whose
lap covers distance 900 in lap time 10.  Lap distance divided by lap time
is 90, but the script reports the mean of the samples, 150; the computation
never consults the lap distance or the lap time at all. -/
theorem averageSpeed_not_distance_over_time :
    (driverSpeedRecord "VER" [100, 200]).averageSpeed = 150
    ∧ specAverageSpeed 900 10 = 90
    ∧ (driverSpeedRecord "VER" [100, 200]).averageSpeed ≠ specAverageSpeed 900 10 := by
  refine ⟨?_, ?_, ?_⟩ <;> norm_num [driverSpeedRecord, averageSpeed, specAverageSpeed]

/-- C5 amended: for every driver with a valid fastest lap, the reported
average speed is the arithmetic mean of the observed speed samples of that
lap (so it times the sample count gives the sample sum, and it never
exceeds the top speed), and the reported top speed is the maximum observed
sample — an observed sample, at least as large as every other sample. -/
theorem speedAnalysis_mean_props (name : String) (speeds : List ℚ) (h : speeds ≠ []) :
    topSpeed speeds ∈ speeds
    ∧ (∀ x ∈ speeds, x ≤ topSpeed speeds)
    ∧ (driverSpeedRecord name speeds).averageSpeed * speeds.length = speeds.sum
    ∧ (driverSpeedRecord name speeds).averageSpeed ≤
        (driverSpeedRecord name speeds).topSpeed := by
  match speeds, h with
  | x :: xs, _ =>
    have htop : topSpeed (x :: xs) = xs.foldl max x := rfl
    have hmem : topSpeed (x :: xs) ∈ x :: xs := by
      rw [htop]
      rcases foldl_max_mem x xs with hx | hx
      · rw [hx]
        exact List.mem_cons_self x xs
      · exact List.mem_cons_of_mem _ hx
    have hbound : ∀ y ∈ x :: xs, y ≤ topSpeed (x :: xs) := by
      intro y hy
      rw [htop]
      rcases List.mem_cons.mp hy with rfl | hmem'
      · exact le_foldl_max y xs
      · exact mem_le_foldl_max x xs y hmem'
    have hlenpos : (0 : ℚ) < ((x :: xs).length : ℚ) := by
      simp only [List.length_cons]
      positivity
    have havg : (driverSpeedRecord name (x :: xs)).averageSpeed =
        (x :: xs).sum / ((x :: xs).length : ℚ) := rfl
    refine ⟨hmem, hbound, ?_, ?_⟩
    · rw [havg, div_mul_cancel₀ _ (ne_of_gt hlenpos)]
    · have hsum : (x :: xs).sum ≤ (x :: xs).length • topSpeed (x :: xs) :=
        List.sum_le_card_nsmul _ _ hbound
      rw [nsmul_eq_mul] at hsum
      rw [havg, div_le_iff₀ hlenpos]
      calc (x :: xs).sum ≤ ((x :: xs).length : ℚ) * topSpeed (x :: xs) := hsum
        _ = (driverSpeedRecord name (x :: xs)).topSpeed * ((x :: xs).length : ℚ) := by
          rw [mul_comm]
          rfl

/-- Witness for C5's amended theorem at the counterexample's sample list. -/
theorem speedAnalysis_mean_props_witness :
    ([100, 200] : List ℚ) ≠ []
    ∧ (topSpeed [100, 200] ∈ ([100, 200] : List ℚ)
      ∧ (∀ x ∈ ([100, 200] : List ℚ), x ≤ topSpeed [100, 200])
      ∧ (driverSpeedRecord "VER" [100, 200]).averageSpeed *
          (([100, 200] : List ℚ).length : ℚ) = ([100, 200] : List ℚ).sum
      ∧ (driverSpeedRecord "VER" [100, 200]).averageSpeed ≤
          (driverSpeedRecord "VER" [100, 200]).topSpeed) :=
  ⟨by simp, speedAnalysis_mean_props "VER" [100, 200] (by simp)⟩

/-- A driver as the React components receive it (the `Driver` interface of
the component app's types module). -/
structure ReactDriver where
  id : String
  name : String
  team : String
  color : String
  number : Nat

/-- One tire stint as `TireStrategyChart.tsx` holds it: compound, start
lap, end lap and lap count. -/
structure Stint where
  compound : String
  startLap : Nat
  endLap : Nat
  laps : Nat
deriving DecidableEq

/-- The stint list `TireStrategyChart.tsx` (lines 18-27) attaches to every
driver: Medium laps 1-15, Hard laps 16-35, Soft laps 36-50. -/
def mockStints : List Stint :=
  [⟨"Medium", 1, 15, 15⟩, ⟨"Hard", 16, 35, 20⟩, ⟨"Soft", 36, 50, 15⟩]

/-- One entry of the component's `mockData`. -/
structure TireStrategyEntry where
  driver : String
  color : String
  stints : List Stint

/-- `mockData` of `TireStrategyChart.tsx`: every selected driver mapped to
the same three stints. -/
def tireMockData (drivers : List ReactDriver) : List TireStrategyEntry :=
  drivers.map fun d => ⟨d.name, d.color, mockStints⟩

/-- The race length hard-coded in the component
(`// Assuming 50 lap race`). -/
def assumedRaceLaps : Nat := 50

/-- Consecutive stints chain: each stint starts one lap after the previous
ends. -/
def contiguousStints : List Stint → Bool
  | [] => true
  | [_] => true
  | s₁ :: s₂ :: rest => (s₂.startLap == s₁.endLap + 1) && contiguousStints (s₂ :: rest)

/-- The partition predicate the spec states for a driver's stints: the
first stint starts at lap 1, stints are contiguous without gaps or
overlaps, the last stint ends at the final lap, each lap count is
`end - start + 1`, and the lap counts sum to the lap total. -/
def stintsPartitionLaps (stints : List Stint) (totalLaps : Nat) : Bool :=
  match stints with
  | [] => totalLaps == 0
  | s :: rest =>
    s.startLap == 1
    && contiguousStints (s :: rest)
    && (((s :: rest).getLast?.map (·.endLap)).getD 0 == totalLaps)
    && (s :: rest).all (fun t => t.laps == t.endLap - t.startLap + 1)
    && ((s :: rest).map (·.laps)).sum == totalLaps

/-- C6: for every driver rendered by the tire-strategy component, the
driver's stint list partitions the race's laps contiguously and without
overlaps — first stint starts at lap 1, each next stint starts right after
the previous one ends, the last ends at the final lap (50), and every lap
count equals end lap minus start lap plus one. -/
theorem tireStints_partition (drivers : List ReactDriver) :
    ∀ e ∈ tireMockData drivers, stintsPartitionLaps e.stints assumedRaceLaps = true := by
  intro e he
  obtain ⟨d, hd, rfl⟩ := List.mem_map.mp he
  show stintsPartitionLaps mockStints assumedRaceLaps = true
  decide

/-- Witness for C6 on a one-driver selection. -/
theorem tireStints_partition_witness :
    (⟨"Max Verstappen", "#1E41FF", mockStints⟩ : TireStrategyEntry) ∈
      tireMockData [⟨"ver", "Max Verstappen", "Red Bull Racing", "#1E41FF", 1⟩]
    ∧ stintsPartitionLaps
        (⟨"Max Verstappen", "#1E41FF", mockStints⟩ : TireStrategyEntry).stints
        assumedRaceLaps = true :=
  ⟨by simp [tireMockData],
    tireStints_partition [⟨"ver", "Max Verstappen", "Red Bull Racing", "#1E41FF", 1⟩]
      _ (by simp [tireMockData])⟩

/-- `basePosition` of `RaceProgressionChart.tsx`: the driver's index in the
selection plus one. -/
def basePosition (idx : Nat) : ℚ := idx + 1

/-- The per-lap chart value of `RaceProgressionChart.tsx` (lines 10-29):
`Math.max(1, Math.min(20, basePosition + variation))`, where `variation`
bundles the sine wave, the random jitter and the pit-stop offsets. -/
def mockPositionValue (idx : Nat) (variation : ℚ) : ℚ :=
  max 1 (min 20 (basePosition idx + variation))

/-- The value shown in the position timeline table and the tooltip:
`Math.round` of the chart value (round half toward positive infinity). -/
def roundedPositionValue (idx : Nat) (variation : ℚ) : Int :=
  ⌊mockPositionValue idx variation + 1 / 2⌋

/-- C10: every race position value the race-progression component produces
lies in the closed interval `[1, 20]` — both the raw chart value and the
rounded table value — for every driver index and every variation or
pit-stop offset. -/
theorem racePosition_bounds (idx : Nat) (variation : ℚ) :
    1 ≤ mockPositionValue idx variation
    ∧ mockPositionValue idx variation ≤ 20
    ∧ 1 ≤ roundedPositionValue idx variation
    ∧ roundedPositionValue idx variation ≤ 20 := by
  have h1 : 1 ≤ mockPositionValue idx variation := le_max_left 1 _
  have h20 : mockPositionValue idx variation ≤ 20 :=
    max_le (by norm_num) (min_le_left 20 _)
  refine ⟨h1, h20, ?_, ?_⟩
  · rw [roundedPositionValue, Int.le_floor]
    push_cast
    linarith
  · have : roundedPositionValue idx variation < 21 := by
      rw [roundedPositionValue, Int.floor_lt]
      push_cast
      linarith
    omega
